import Mathlib

/-!
# Verification of the mmap-grep codebase index and search engine

A shallow embedding of `src/mmap_grep.py` (class `FastGrep`) and proofs of the
specified properties.  File contents are modelled as lists of byte values
(`Nat`), the process-wide registry `self.codebases` as an insertion-ordered
association list (Python `dict` semantics), and the outcomes of the external
collaborators (the filesystem seen through `rglob`/`stat`/`open`, and the `re`
regex library) as explicit inputs, since the spec treats them as external.
All `print` calls are modelled as emitted `Msg` values.
-/

namespace MmapGrep

/-- A byte of file content. -/
abbrev Byte := Nat

/-- The newline byte `b'\n'`, the line separator used throughout the source. -/
def NL : Byte := 10

/-- One regular file as the filesystem presents it to `FastGrep.load`:
`root.rglob('*')` enumeration (restricted to `f.is_file()`), the `f.suffix`
and `f.stat()` data, the mapped content bytes, and whether `open(f, 'r+b')`
succeeds.  `writable = false` models a file the process may read but not
write: opening it in mode `'r+b'` raises (`PermissionError`), which is the
per-file failure mode relevant here.  Zero-length files have `content = []`. -/
structure SrcFile where
  path : String
  suffix : String
  size : Nat
  mtime : Int
  content : List Byte
  writable : Bool
  deriving DecidableEq

/-- The per-file metadata dict built at load time (`stats[fpath] = {...}`,
src/mmap_grep.py lines 128-134). -/
structure FileMeta where
  size : Nat
  ext : String
  mtime : Int
  lines : Nat
  words : Nat
  deriving DecidableEq

/-- Messages printed by the source; each constructor is one `print` call. -/
inductive Msg where
  /-- `print(f"Bad path: {path}")` -/
  | badPath (path : String)
  /-- `print(f"Loading {name} from {path}...")` -/
  | loading (name path : String)
  /-- `print(f"Couldn't load {f}: {e}")` -/
  | loadError (path : String)
  /-- `print(f"No files found in {path}")` — the spec's `NoFilesFound` -/
  | noFiles (path : String)
  /-- `print(f"Loaded {n} files for {name}")` -/
  | loaded (count : Nat) (name : String)
  /-- `print(f"Unloaded {name}")` -/
  | unloaded (name : String)
  /-- `print(f"No codebase: {name}")` — the spec's `UnknownCodebase` -/
  | noCodebase (name : String)
  /-- `print(f"File not found: {filepath}")` -/
  | fileNotFound (path : String)
  /-- `print(f"Bad regex: {e}")` — the spec's `InvalidPattern` -/
  | badRegex
  deriving DecidableEq

/-- The `Codebase` dataclass: `files` maps path to the mapped buffer's bytes
and `stats` maps path to metadata; both are insertion-ordered like `dict`. -/
structure Codebase where
  name : String
  path : String
  files : List (String × List Byte)
  stats : List (String × FileMeta)
  deriving DecidableEq

/-- The `SearchRequest` dataclass. -/
structure SearchRequest where
  codebase : String
  pattern : String
  case_sensitive : Bool
  max_results : Option Nat
  deriving DecidableEq

/-- The `SearchResult` dataclass.  `text` is the stripped line; the source
stores it decoded as UTF-8 with replacement (which never fails), we keep the
stripped bytes since no property inspects the decoded text. -/
structure SearchResult where
  file : String
  line : Nat
  text : List Byte
  pos : Nat
  deriving DecidableEq

/-- The `FileInfo` dataclass returned by `file_info`. -/
structure FileInfo where
  file : String
  size : Nat
  ext : String
  mtime : Int
  lines : Nat
  words : Nat
  deriving DecidableEq

/-- The `Stats` dataclass.  The display-only `biggest` (top-10 by size) and
`common_words` (top-20 token frequencies) fields are not modelled; no claim
refers to them.  The per-extension dicts are insertion-ordered association
lists exactly as built by the source's `dict.get` accumulation. -/
structure Stats where
  files : Nat
  size : Nat
  lines : Nat
  words : Nat
  types : List (String × Nat)
  size_by_ext : List (String × Nat)
  lines_by_ext : List (String × Nat)
  deriving DecidableEq

/-- The process state of a `FastGrep` instance that the synchronous operations
touch: the `self.codebases` registry (`dict` = insertion-ordered assoc list). -/
abbrev Registry := List (String × Codebase)

/-- `d[k]` / `k in d` lookup on an insertion-ordered dict. -/
def alLookup {α : Type} (k : String) : List (String × α) → Option α
  | [] => none
  | (k', v) :: rest => if k' = k then some v else alLookup k rest

/-- `d[k] = v` on a dict: replaces in place if present, else appends. -/
def alInsert {α : Type} (k : String) (v : α) : List (String × α) → List (String × α)
  | [] => [(k, v)]
  | (k', v') :: rest => if k' = k then (k, v) :: rest else (k', v') :: alInsert k v rest

/-- `del d[k]` on a dict (keys are unique, so removing the first hit suffices). -/
def alErase {α : Type} (k : String) : List (String × α) → List (String × α)
  | [] => []
  | (k', v') :: rest => if k' = k then rest else (k', v') :: alErase k rest

/-- Python's `bytes.split(sep)` for a one-byte separator: `b''.split` gives
`[b'']`, and a trailing separator yields a trailing empty segment. -/
def pySplit (sep : Byte) : List Byte → List (List Byte)
  | [] => [[]]
  | b :: rest =>
    match pySplit sep rest with
    | [] => [[]]
    | cur :: done => if b = sep then [] :: cur :: done else (b :: cur) :: done

/-- ASCII whitespace, as stripped by Python `str.strip()`. -/
def isWs (b : Byte) : Bool := b = 32 || b = 9 || b = 10 || b = 13 || b = 11 || b = 12

/-- Python `str.strip()` on the (ASCII) bytes of a line. -/
def pyStrip (l : List Byte) : List Byte :=
  ((l.dropWhile isWs).reverse.dropWhile isWs).reverse

/-- A `\w` word character (ASCII range): alphanumeric or underscore. -/
def isWordByte (b : Byte) : Bool :=
  (48 ≤ b && b ≤ 57) || (65 ≤ b && b ≤ 90) || (97 ≤ b && b ≤ 122) || b = 95

/-- Number of maximal runs of bytes satisfying `p`; `inRun` records whether
the previous byte was in a run. -/
def countRuns (p : Byte → Bool) : List Byte → Bool → Nat
  | [], _ => 0
  | b :: rest, inRun =>
    if p b then (if inRun then 0 else 1) + countRuns p rest true
    else countRuns p rest false

/-- `len(word_re.findall(content.decode('utf-8', errors='replace')))` with
`word_re = re.compile(r'\b\w+\b')`: the number of maximal word-character
runs.  Modelled for ASCII content, where the decode is the identity. -/
def wordCount (l : List Byte) : Nat := countRuns isWordByte l false

/-- The per-file metadata dict computed at src/mmap_grep.py lines 123-134:
`lines = content.split(b'\n')`, metadata records `len(lines)`. -/
def mkMeta (f : SrcFile) : FileMeta :=
  { size := f.size
    ext := f.suffix
    mtime := f.mtime
    lines := (pySplit NL f.content).length
    words := wordCount f.content }

/-- Outcome of the per-file `try` block at src/mmap_grep.py lines 107-137. -/
inductive LoadOutcome where
  /-- both `files[fpath]` and `stats[fpath]` were recorded -/
  | ok (path : String) (content : List Byte) (meta : FileMeta)
  /-- zero-length file: the `if file.seek(0, 2) > 0` guard skipped it silently -/
  | skipped
  /-- the `except` branch ran: the failure is printed and the file skipped -/
  | failed (msg : Msg)
  deriving DecidableEq

/-- One iteration of the load loop: `open(f, 'r+b')` raises when the file is
not writable (caught and printed), zero-length files are skipped silently,
otherwise the buffer is mapped and the metadata computed. -/
def loadFile (f : SrcFile) : LoadOutcome :=
  if f.writable then
    if 0 < f.content.length then .ok f.path f.content (mkMeta f)
    else .skipped
  else .failed (Msg.loadError f.path)

/-- Projection selecting the successfully loaded entries. -/
def okEntry : LoadOutcome → Option (String × List Byte × FileMeta)
  | .ok p c m => some (p, c, m)
  | _ => none

/-- Projection selecting the per-file error messages. -/
def failMsg : LoadOutcome → Option Msg
  | .failed m => some m
  | _ => none

/-- Python `str.lower()` on one character, for the ASCII range that file
extensions use. -/
def lowerChar (c : Char) : Char :=
  if 65 ≤ c.toNat ∧ c.toNat ≤ 90 then Char.ofNat (c.toNat + 32) else c

/-- Python `str.lower()` (extensions are ASCII, where lowering is
per-character). -/
def pyLower (s : String) : String := String.mk (s.data.map lowerChar)

/-- The fixed binary-exclusion set (src/mmap_grep.py line 98), compared
against `f.suffix.lower()`. -/
def BINARY_EXTS : List String :=
  [".png", ".jpg", ".jpeg", ".gif", ".ico", ".pdf", ".zip", ".tar", ".gz",
   ".exe", ".dll", ".so", ".dylib"]

/-- The built-in default allow-list substituted when `exts is None`
(src/mmap_grep.py lines 83-86), compared against `f.suffix` (original case). -/
def DEFAULT_EXTS : List String :=
  [".py", ".txt", ".md", ".js", ".java", ".c", ".cpp", ".h", ".go", ".rs",
   ".ts", ".jsx", ".tsx", ".html", ".sh", ".sample", ".yml", ".yaml",
   ".json", ".xml"]

/-- `if exts is None: exts = [...]` — only an absent argument triggers the
default; an explicit `[]` is kept as `[]`. -/
def resolveExts : Option (List String) → List String
  | none => DEFAULT_EXTS
  | some l => l

/-- File discovery and filtering (src/mmap_grep.py lines 94-104): drop
binary suffixes (lower-cased comparison), then — only when the resolved
allow-list is non-empty, because `if exts:` is Python truthiness — keep
files whose exact suffix is in the allow-list. -/
def candidateFiles (fsFiles : List SrcFile) (exts : Option (List String)) : List SrcFile :=
  let es := resolveExts exts
  let nonBinary := fsFiles.filter fun f => !(BINARY_EXTS.contains (pyLower f.suffix))
  if es.isEmpty then nonBinary
  else nonBinary.filter fun f => es.contains f.suffix

/-- The loaded `(path, buffer, metadata)` entries produced by the load loop. -/
def loadEntries (cands : List SrcFile) : List (String × List Byte × FileMeta) :=
  (cands.map loadFile).filterMap okEntry

/-- The per-file error messages printed by the load loop, in order. -/
def loadErrs (cands : List SrcFile) : List Msg :=
  (cands.map loadFile).filterMap failMsg

/-- The `files` dict built by the load loop. -/
def loadFiles (cands : List SrcFile) : List (String × List Byte) :=
  (loadEntries cands).map fun e => (e.1, e.2.1)

/-- The `stats` dict built by the load loop. -/
def loadStats (cands : List SrcFile) : List (String × FileMeta) :=
  (loadEntries cands).map fun e => (e.1, e.2.2)

/-- `FastGrep.load(name, path, exts)` (src/mmap_grep.py lines 77-151).
`pathIsDir` is the outcome of `os.path.isdir(path)` and `fsFiles` the
regular files `root.rglob('*')` yields, in traversal order.  Returns the
new registry, the boolean result, and the printed messages: `Loading`,
then the per-file errors in loop order, then `No files found` (registry
untouched, result `False`) or `Loaded n files` (registry entry written,
result `True`). -/
def load (st : Registry) (name path : String) (pathIsDir : Bool)
    (fsFiles : List SrcFile) (exts : Option (List String)) :
    Registry × Bool × List Msg :=
  if pathIsDir = false then (st, false, [Msg.badPath path])
  else if (loadFiles (candidateFiles fsFiles exts)).isEmpty then
    (st, false,
     Msg.loading name path :: loadErrs (candidateFiles fsFiles exts) ++ [Msg.noFiles path])
  else
    (alInsert name
      { name := name, path := path,
        files := loadFiles (candidateFiles fsFiles exts),
        stats := loadStats (candidateFiles fsFiles exts) } st,
     true,
     Msg.loading name path :: loadErrs (candidateFiles fsFiles exts) ++
       [Msg.loaded (loadFiles (candidateFiles fsFiles exts)).length name])

/-- `FastGrep.unload(name)` (src/mmap_grep.py lines 153-160): when the name
is present, every mapping is closed (closing has no observable effect on the
modelled state) and the entry deleted; when absent, the `if` guard means
nothing at all happens — no message, no state change. -/
def unload (st : Registry) (name : String) : Registry × List Msg :=
  match alLookup name st with
  | some _ => (alErase name st, [Msg.unloaded name])
  | none => (st, [])

/-- `d[k] = d.get(k, 0) + v` on an insertion-ordered dict of counters. -/
def bump (k : String) (v : Nat) : List (String × Nat) → List (String × Nat)
  | [] => [(k, v)]
  | (k', v') :: rest => if k' = k then (k', v' + v) :: rest else (k', v') :: bump k v rest

/-- Fold a keyed value list into a counter dict, as the `for s in
cb.stats.values()` accumulation loop does. -/
def accumBy (l : List (String × Nat)) : List (String × Nat) :=
  l.foldl (fun acc kv => bump kv.1 kv.2 acc) []

/-- Sum of the values of a counter dict (`sum(d.values())`). -/
def sumVals (l : List (String × Nat)) : Nat := (l.map Prod.snd).sum

/-- `FastGrep.stats(name)` (src/mmap_grep.py lines 163-222), restricted to
the modelled fields.  The method only reads `self.codebases`, so the
registry is returned unchanged. -/
def statsOf (st : Registry) (name : String) : Registry × Option Stats × List Msg :=
  match alLookup name st with
  | none => (st, none, [Msg.noCodebase name])
  | some cb =>
    let metas := cb.stats.map Prod.snd
    (st,
     some
       { files := cb.files.length
         size := (metas.map FileMeta.size).sum
         lines := (metas.map FileMeta.lines).sum
         words := (metas.map FileMeta.words).sum
         types := accumBy (metas.map fun m => (m.ext, 1))
         size_by_ext := accumBy (metas.map fun m => (m.ext, m.size))
         lines_by_ext := accumBy (metas.map fun m => (m.ext, m.lines)) },
     [])

/-- `FastGrep.file_info(name, filepath)` (src/mmap_grep.py lines 225-245). -/
def fileInfo (st : Registry) (name fpath : String) :
    Registry × Option FileInfo × List Msg :=
  match alLookup name st with
  | none => (st, none, [Msg.noCodebase name])
  | some cb =>
    match alLookup fpath cb.stats with
    | none => (st, none, [Msg.fileNotFound fpath])
    | some s =>
      (st,
       some { file := fpath, size := s.size, ext := s.ext, mtime := s.mtime,
              lines := s.lines, words := s.words },
       [])

/-- A compiled `re` pattern, modelled by its matching relation:
`matchesAt s p` holds when the pattern has a match starting at byte offset
`p` of the line `s`.  The `re` library is an external collaborator (spec
section 1 assumes a standard regex library), so its compiled patterns are
modelled semantically. -/
structure Regex where
  matchesAt : List Byte → Nat → Bool

/-- Scan offsets `p, p+1, ...` (at most `fuel` of them) for the first one at
which the pattern matches. -/
def searchFrom (r : Regex) (s : List Byte) : Nat → Nat → Option Nat
  | _, 0 => none
  | p, fuel + 1 => if r.matchesAt s p then some p else searchFrom r s (p + 1) fuel

/-- `pattern.search(line)` reduced to the start offset it reports:
the leftmost offset in `0 .. s.length` at which the pattern matches
(a `re` match can begin at any offset up to and including the end of the
string, where only an empty match is possible). -/
def Regex.search (r : Regex) (s : List Byte) : Option Nat :=
  searchFrom r s 0 (s.length + 1)

/-- The Python truthiness test `request.max_results and len(results) >=
request.max_results` (src/mmap_grep.py line 282): `None` and `0` are both
falsy, so a cap of `0` never fires. -/
def capHit (cap : Option Nat) (n : Nat) : Bool :=
  match cap with
  | none => false
  | some k => if k = 0 then false else decide (k ≤ n)

/-- The inner line loop of `FastGrep.search` (src/mmap_grep.py lines
269-285): lines are 1-indexed, a line contributes at most one result (a
single `pattern.search`), the result is appended and the cap test runs
immediately after the append; the returned flag records whether the `return
results` inside the loop fired.  The `try`/`except` around result assembly
is dead code — decoding with `errors='replace'` cannot raise — so it has no
counterpart here. -/
def searchLines (r : Regex) (fp : String) (cap : Option Nat) :
    List SearchResult → Nat → List (List Byte) → List SearchResult × Bool
  | acc, _, [] => (acc, false)
  | acc, i, line :: rest =>
    match r.search line with
    | none => searchLines r fp cap acc (i + 1) rest
    | some p =>
      let acc' := acc ++ [{ file := fp, line := i, text := pyStrip line, pos := p }]
      if capHit cap acc'.length then (acc', true)
      else searchLines r fp cap acc' (i + 1) rest

/-- The outer file loop of `FastGrep.search` (src/mmap_grep.py lines
264-287): each mapped buffer is split on `b'\n'` and scanned; when the
inner loop reports that the cap fired, the accumulated results are returned
immediately and the remaining files are never visited. -/
def searchFiles (r : Regex) (cap : Option Nat) :
    List SearchResult → List (String × List Byte) → List SearchResult
  | acc, [] => acc
  | acc, (fp, content) :: rest =>
    match searchLines r fp cap acc 1 (pySplit NL content) with
    | (acc', true) => acc'
    | (acc', false) => searchFiles r cap acc' rest

/-- `FastGrep.search(request)` (src/mmap_grep.py lines 247-287).
`compiled` is the outcome of `re.compile(request.pattern.encode('utf-8'),
flags)` where the flags implement `case_sensitive`: `none` models the
`re.error` branch.  The method only reads `self.codebases`, so the registry
is returned unchanged. -/
def search (st : Registry) (req : SearchRequest) (compiled : Option Regex) :
    Registry × List SearchResult × List Msg :=
  match alLookup req.codebase st with
  | none => (st, [], [Msg.noCodebase req.codebase])
  | some cb =>
    match compiled with
    | none => (st, [], [Msg.badRegex])
    | some r => (st, searchFiles r req.max_results [] cb.files, [])

/-! ## Basic facts about the modelled primitives -/

/-- `pySplit` always yields at least one segment (as `bytes.split` does). -/
theorem pySplit_ne_nil (sep : Byte) : ∀ l : List Byte, pySplit sep l ≠ []
  | [] => by simp [pySplit]
  | b :: rest => by
    have h := pySplit_ne_nil sep rest
    unfold pySplit
    cases hs : pySplit sep rest with
    | nil => simp
    | cons cur done =>
      by_cases hb : b = sep <;> simp [hb]

/-- The number of segments `bytes.split(sep)` produces is the number of
separator bytes plus one. -/
theorem pySplit_length (sep : Byte) : ∀ l : List Byte,
    (pySplit sep l).length = l.count sep + 1
  | [] => by simp [pySplit]
  | b :: rest => by
    have ih := pySplit_length sep rest
    have hne := pySplit_ne_nil sep rest
    unfold pySplit
    cases hs : pySplit sep rest with
    | nil => exact absurd hs hne
    | cons cur done =>
      rw [hs] at ih
      simp only [List.length_cons] at ih
      by_cases hb : b = sep <;> simp [hb, List.count_cons] <;> omega

/-- `searchFrom` reports an offset in the scanned window at which the
pattern matches, and no smaller scanned offset matches. -/
theorem searchFrom_spec (r : Regex) (s : List Byte) : ∀ (fuel p q : Nat),
    searchFrom r s p fuel = some q →
    r.matchesAt s q = true ∧ p ≤ q ∧ q < p + fuel ∧
      ∀ j, p ≤ j → j < q → r.matchesAt s j = false
  | 0, p, q => by simp [searchFrom]
  | fuel + 1, p, q => by
    intro h
    unfold searchFrom at h
    by_cases hm : r.matchesAt s p
    · rw [if_pos hm] at h
      obtain rfl : p = q := by injection h
      exact ⟨hm, Nat.le_refl _, by omega, fun j h1 h2 => absurd (Nat.lt_of_le_of_lt h1 h2) (Nat.lt_irrefl _)⟩
    · rw [if_neg hm] at h
      obtain ⟨hq, hle, hlt, hmin⟩ := searchFrom_spec r s fuel (p + 1) q h
      refine ⟨hq, by omega, by omega, fun j h1 h2 => ?_⟩
      rcases Nat.eq_or_lt_of_le h1 with h1 | h1
      · subst h1; exact Bool.eq_false_iff.mpr hm
      · exact hmin j h1 h2

/-- If some offset in the scanned window matches, `searchFrom` succeeds. -/
theorem searchFrom_complete (r : Regex) (s : List Byte) : ∀ (fuel p : Nat),
    (∃ j, p ≤ j ∧ j < p + fuel ∧ r.matchesAt s j = true) →
    (searchFrom r s p fuel).isSome = true
  | 0, p => by
    rintro ⟨j, h1, h2, _⟩
    omega
  | fuel + 1, p => by
    rintro ⟨j, h1, h2, hj⟩
    unfold searchFrom
    by_cases hm : r.matchesAt s p
    · simp [hm]
    · rw [if_neg hm]
      have hpj : p ≠ j := fun h => hm (h ▸ hj)
      exact searchFrom_complete r s fuel (p + 1) ⟨j, by omega, by omega, hj⟩

/-- `Regex.search` finds the leftmost matching offset: the reported offset
matches and every smaller offset does not. -/
theorem search_leftmost (r : Regex) (s : List Byte) (q : Nat)
    (h : r.search s = some q) :
    r.matchesAt s q = true ∧ q ≤ s.length ∧
      ∀ j, j < q → r.matchesAt s j = false := by
  obtain ⟨h1, _, h3, h4⟩ := searchFrom_spec r s (s.length + 1) 0 q h
  exact ⟨h1, by omega, fun j hj => h4 j (Nat.zero_le _) hj⟩

/-- `Regex.search` succeeds exactly when the line contains a match (a match
start is any offset up to the line length). -/
theorem search_isSome_iff (r : Regex) (s : List Byte) :
    (r.search s).isSome = true ↔ ∃ p, p ≤ s.length ∧ r.matchesAt s p = true := by
  constructor
  · intro h
    cases hq : r.search s with
    | none => rw [hq] at h; simp at h
    | some q =>
      obtain ⟨h1, h2, _⟩ := search_leftmost r s q hq
      exact ⟨q, h2, h1⟩
  · rintro ⟨p, hp, hm⟩
    exact searchFrom_complete r s (s.length + 1) 0 ⟨p, Nat.zero_le _, by omega, hm⟩

/-! ## Spec-side description of search and the refinement lemmas -/

/-- Helper: the results the line loop contributes for the lines of one file,
starting at line number `i`, with no cap interference. -/
def lineHits (r : Regex) (fp : String) : Nat → List (List Byte) → List SearchResult
  | _, [] => []
  | i, line :: rest =>
    match r.search line with
    | none => lineHits r fp (i + 1) rest
    | some p =>
      { file := fp, line := i, text := pyStrip line, pos := p } ::
        lineHits r fp (i + 1) rest

/-- Helper: the full uncapped result list over a sequence of files. -/
def allHits (r : Regex) (files : List (String × List Byte)) : List SearchResult :=
  files.flatMap fun fc => lineHits r fc.1 1 (pySplit NL fc.2)

/-- Spec-side description of the results for one file, following the spec's
words: number its lines from 1, and each line at which the pattern has a
match contributes exactly one result carrying the match's start offset. -/
def specFileResults (r : Regex) (fp : String) (content : List Byte) : List SearchResult :=
  (List.enumFrom 1 (pySplit NL content)).filterMap fun il =>
    match r.search il.2 with
    | some p => some { file := fp, line := il.1, text := pyStrip il.2, pos := p }
    | none => none

/-- Spec-side description of the uncapped search output: the per-file result
lists in file enumeration order, and nothing else. -/
def specUncappedResults (r : Regex) (files : List (String × List Byte)) : List SearchResult :=
  files.flatMap fun fc => specFileResults r fc.1 fc.2

/-- The number of lines, across all files, that contain at least one match. -/
def countMatchingLines (r : Regex) (files : List (String × List Byte)) : Nat :=
  (files.map fun fc =>
    (pySplit NL fc.2).countP fun line => (r.search line).isSome).sum

/-- The spec-side per-file list coincides with the recursive helper. -/
theorem specFileResults_eq (r : Regex) (fp : String) : ∀ (lines : List (List Byte)) (i : Nat),
    ((List.enumFrom i lines).filterMap fun il =>
      match r.search il.2 with
      | some p => some { file := fp, line := il.1, text := pyStrip il.2, pos := p }
      | none => none) = lineHits r fp i lines
  | [], _ => rfl
  | line :: rest, i => by
    have ih := specFileResults_eq r fp rest (i + 1)
    simp only [List.enumFrom, List.filterMap_cons]
    cases hs : r.search line with
    | none => simpa [lineHits, hs] using ih
    | some p => simpa [lineHits, hs] using ih

/-- The number of per-file hits is the number of matching lines. -/
theorem lineHits_length (r : Regex) (fp : String) : ∀ (lines : List (List Byte)) (i : Nat),
    (lineHits r fp i lines).length =
      lines.countP fun line => (r.search line).isSome
  | [], _ => rfl
  | line :: rest, i => by
    have ih := lineHits_length r fp rest (i + 1)
    unfold lineHits
    cases hs : r.search line with
    | none => simp [List.countP_cons, hs, ih]
    | some p => simp [List.countP_cons, hs, ih]

/-- With no cap (`max_results=None`), the line loop appends exactly the
per-file hits to the accumulator and never stops early. -/
theorem searchLines_none (r : Regex) (fp : String) :
    ∀ (lines : List (List Byte)) (acc : List SearchResult) (i : Nat),
    searchLines r fp none acc i lines = (acc ++ lineHits r fp i lines, false)
  | [], acc, i => by simp [searchLines, lineHits]
  | line :: rest, acc, i => by
    have ih := searchLines_none r fp rest
    unfold searchLines lineHits
    cases hs : r.search line with
    | none => simp [hs, ih]
    | some p => simp [hs, capHit, ih]

/-- With no cap, the file loop returns the accumulator followed by every
file's hits. -/
theorem searchFiles_none (r : Regex) :
    ∀ (files : List (String × List Byte)) (acc : List SearchResult),
    searchFiles r none acc files = acc ++ allHits r files
  | [], acc => by simp [searchFiles, allHits]
  | (fp, content) :: rest, acc => by
    have ih := searchFiles_none r rest
    unfold searchFiles
    rw [searchLines_none r fp]
    simp [allHits, ih]

/-- With a non-zero cap, the truthiness test is a plain comparison. -/
theorem capHit_some (k n : Nat) (hk : k ≠ 0) :
    capHit (some k) n = decide (k ≤ n) := by
  simp [capHit, hk]

/-- Taking at most the first list's worth of an append stays in the first
list. -/
theorem take_append_of_le {α : Type} (l1 l2 : List α) (k : Nat)
    (h : k ≤ l1.length) : (l1 ++ l2).take k = l1.take k := by
  rw [List.take_append_eq_append_take, Nat.sub_eq_zero_of_le h,
    List.take_zero, List.append_nil]

/-- With a positive cap `k` and fewer than `k` accumulated results, the line
loop produces the first `k` of accumulator-plus-hits, and stops early
exactly when that many exist. -/
theorem searchLines_capped (r : Regex) (fp : String) (k : Nat) (hk : 1 ≤ k) :
    ∀ (lines : List (List Byte)) (acc : List SearchResult) (i : Nat),
    acc.length < k →
    searchLines r fp (some k) acc i lines =
      ((acc ++ lineHits r fp i lines).take k,
       decide (k ≤ (acc ++ lineHits r fp i lines).length))
  | [], acc, i => by
    intro hlt
    simp only [searchLines, lineHits, List.append_nil]
    rw [List.take_of_length_le (Nat.le_of_lt hlt)]
    simp only [Prod.mk.injEq, true_and]
    simp
    omega
  | line :: rest, acc, i => by
    intro hlt
    unfold searchLines lineHits
    cases hs : r.search line with
    | none => exact searchLines_capped r fp k hk rest acc (i + 1) hlt
    | some p =>
      simp only
      rw [capHit_some k _ (by omega)]
      by_cases hreach : k ≤ acc.length + 1
      · rw [if_pos (by simp; omega)]
        simp only [Prod.mk.injEq]
        refine ⟨?_, ?_⟩
        · rw [List.take_append_eq_append_take,
            List.take_of_length_le (by omega : acc.length ≤ k),
            show k - acc.length = 1 from by omega]
          simp
        · simp
          omega
      · rw [if_neg (by simp; omega)]
        rw [searchLines_capped r fp k hk rest _ (i + 1) (by simp; omega)]
        simp

/-- With a positive cap `k`, starting below the cap, the file loop returns
the first `k` results of accumulator-plus-all-hits. -/
theorem searchFiles_capped (r : Regex) (k : Nat) (hk : 1 ≤ k) :
    ∀ (files : List (String × List Byte)) (acc : List SearchResult),
    acc.length < k →
    searchFiles r (some k) acc files = (acc ++ allHits r files).take k
  | [], acc => by
    intro hlt
    simp only [searchFiles, allHits, List.flatMap_nil, List.append_nil]
    rw [List.take_of_length_le (Nat.le_of_lt hlt)]
  | (fp, content) :: rest, acc => by
    intro hlt
    have hall : allHits r ((fp, content) :: rest) =
        lineHits r fp 1 (pySplit NL content) ++ allHits r rest := by
      simp [allHits]
    unfold searchFiles
    rw [searchLines_capped r fp k hk _ acc 1 hlt]
    split
    next acc' heq =>
      injection heq with e1 e2
      subst e1
      have hstop : k ≤ (acc ++ lineHits r fp 1 (pySplit NL content)).length :=
        of_decide_eq_true e2
      rw [hall, ← List.append_assoc, take_append_of_le _ _ _ hstop]
    next acc' heq =>
      injection heq with e1 e2
      subst e1
      have hstop : ¬ k ≤ (acc ++ lineHits r fp 1 (pySplit NL content)).length :=
        of_decide_eq_false e2
      have hlen : (acc ++ lineHits r fp 1 (pySplit NL content)).length < k := by
        omega
      rw [List.take_of_length_le (Nat.le_of_lt hlen)]
      rw [searchFiles_capped r k hk rest _ hlen, hall, ← List.append_assoc]

/-! ## Load, registry and stats lemmas -/

/-- The condition under which the load loop records a file: the `'r+b'`
open succeeded and the file is non-empty. -/
def loadOk (f : SrcFile) : Bool := f.writable && decide (0 < f.content.length)

/-- The entry the load loop records for a successfully processed file. -/
def entryOf (f : SrcFile) : String × List Byte × FileMeta :=
  (f.path, f.content, mkMeta f)

/-- The load loop records exactly the writable non-empty candidates, in
order, with their content and computed metadata. -/
theorem loadEntries_eq : ∀ cands : List SrcFile,
    loadEntries cands = (cands.filter loadOk).map entryOf
  | [] => rfl
  | f :: rest => by
    have ih := loadEntries_eq rest
    unfold loadEntries at ih ⊢
    by_cases hw : f.writable
    · by_cases hc : 0 < f.content.length
      · have hf : loadFile f = LoadOutcome.ok f.path f.content (mkMeta f) := by
          simp [loadFile, hw, hc]
        have hok : loadOk f = true := by simp [loadOk, hw, hc]
        rw [List.map_cons, List.filterMap_cons, hf, List.filter_cons, hok]
        show entryOf f :: List.filterMap okEntry (List.map loadFile rest) =
          entryOf f :: List.map entryOf (List.filter loadOk rest)
        exact congrArg _ ih
      · have hf : loadFile f = LoadOutcome.skipped := by simp [loadFile, hw, hc]
        have hok : loadOk f = false := by simp [loadOk, hw, hc]
        rw [List.map_cons, List.filterMap_cons, hf, List.filter_cons, hok]
        show List.filterMap okEntry (List.map loadFile rest) =
          List.map entryOf (List.filter loadOk rest)
        exact ih
    · have hf : loadFile f = LoadOutcome.failed (Msg.loadError f.path) := by
        simp [loadFile, hw]
      have hok : loadOk f = false := by simp [loadOk, hw]
      rw [List.map_cons, List.filterMap_cons, hf, List.filter_cons, hok]
      show List.filterMap okEntry (List.map loadFile rest) =
        List.map entryOf (List.filter loadOk rest)
      exact ih

/-- The load loop prints one `Couldn't load` message per candidate whose
open failed, in order. -/
theorem loadErrs_eq : ∀ cands : List SrcFile,
    loadErrs cands =
      (cands.filter fun f => !f.writable).map fun f => Msg.loadError f.path
  | [] => rfl
  | f :: rest => by
    have ih := loadErrs_eq rest
    unfold loadErrs at ih ⊢
    by_cases hw : f.writable
    · by_cases hc : 0 < f.content.length
      · have hf : loadFile f = LoadOutcome.ok f.path f.content (mkMeta f) := by
          simp [loadFile, hw, hc]
        rw [List.map_cons, List.filterMap_cons, hf, List.filter_cons,
          show (!f.writable) = false from by simp [hw]]
        show List.filterMap failMsg (List.map loadFile rest) = _
        exact ih
      · have hf : loadFile f = LoadOutcome.skipped := by simp [loadFile, hw, hc]
        rw [List.map_cons, List.filterMap_cons, hf, List.filter_cons,
          show (!f.writable) = false from by simp [hw]]
        show List.filterMap failMsg (List.map loadFile rest) = _
        exact ih
    · have hf : loadFile f = LoadOutcome.failed (Msg.loadError f.path) := by
        simp [loadFile, hw]
      rw [List.map_cons, List.filterMap_cons, hf, List.filter_cons,
        show (!f.writable) = true from by simp [hw]]
      show Msg.loadError f.path :: List.filterMap failMsg (List.map loadFile rest) = _
      exact congrArg _ ih

/-- Looking up the key just written returns the written value. -/
theorem alLookup_alInsert_self {α : Type} (k : String) (v : α) :
    ∀ l : List (String × α), alLookup k (alInsert k v l) = some v
  | [] => by simp [alInsert, alLookup]
  | (k', v') :: rest => by
    by_cases h : k' = k
    · simp [alInsert, alLookup, h]
    · simp [alInsert, alLookup, h, alLookup_alInsert_self k v rest]

/-- Every entry after a dict write is the written pair or an old entry. -/
theorem mem_alInsert {α : Type} (k : String) (v : α) (x : String × α) :
    ∀ l : List (String × α), x ∈ alInsert k v l → x = (k, v) ∨ x ∈ l
  | [] => by simp [alInsert]
  | (k', v') :: rest => by
    by_cases h : k' = k
    · subst h
      simp only [alInsert, if_true, List.mem_cons]
      rintro (h1 | hx)
      · exact Or.inl h1
      · exact Or.inr (Or.inr hx)
    · simp only [alInsert, if_neg h, List.mem_cons]
      rintro (h1 | hx)
      · exact Or.inr (Or.inl h1)
      · rcases mem_alInsert k v x rest hx with h1 | h1
        · exact Or.inl h1
        · exact Or.inr (Or.inr h1)

/-- Every entry surviving a dict delete was already present. -/
theorem mem_alErase {α : Type} (k : String) (x : String × α) :
    ∀ l : List (String × α), x ∈ alErase k l → x ∈ l
  | [] => by simp [alErase]
  | (k', v') :: rest => by
    by_cases h : k' = k
    · subst h
      simp only [alErase, if_true, List.mem_cons]
      exact fun hx => Or.inr hx
    · simp only [alErase, if_neg h, List.mem_cons]
      rintro (h1 | hx)
      · exact Or.inl h1
      · exact Or.inr (mem_alErase k x rest hx)

/-- A `d[k] = d.get(k, 0) + v` update grows the value sum by `v`. -/
theorem sumVals_bump (k : String) (v : Nat) :
    ∀ acc : List (String × Nat), sumVals (bump k v acc) = sumVals acc + v
  | [] => by simp [bump, sumVals]
  | (k', v') :: rest => by
    by_cases h : k' = k
    · subst h
      simp [bump, sumVals]
      omega
    · have ih := sumVals_bump k v rest
      simp only [bump, if_neg h, sumVals, List.map_cons, List.sum_cons] at ih ⊢
      omega

/-- Folding keyed values into a counter dict preserves the total. -/
theorem sumVals_foldl : ∀ (l : List (String × Nat)) (acc : List (String × Nat)),
    sumVals (l.foldl (fun acc kv => bump kv.1 kv.2 acc) acc) =
      sumVals acc + sumVals l
  | [], acc => by simp [sumVals]
  | kv :: rest, acc => by
    simp only [List.foldl_cons]
    rw [sumVals_foldl rest (bump kv.1 kv.2 acc), sumVals_bump]
    simp [sumVals]
    omega

/-- Grouping keyed values by key preserves the total. -/
theorem sumVals_accumBy (l : List (String × Nat)) :
    sumVals (accumBy l) = sumVals l := by
  unfold accumBy
  rw [sumVals_foldl]
  simp [sumVals]

/-- With no allow-list argument, the default allow-list applies: candidates
are the files that pass the binary exclusion and whose exact suffix is in
`DEFAULT_EXTS`. -/
theorem candidateFiles_none (fsFiles : List SrcFile) :
    candidateFiles fsFiles none =
      fsFiles.filter fun f =>
        !(BINARY_EXTS.contains (pyLower f.suffix)) && DEFAULT_EXTS.contains f.suffix := by
  simp only [candidateFiles, resolveExts,
    show DEFAULT_EXTS.isEmpty = false from rfl, Bool.false_eq_true, if_false,
    List.filter_filter]
  congr 1
  funext f
  exact Bool.and_comm _ _

/-- With an explicitly empty allow-list, `if exts:` is falsy and only the
binary exclusion applies. -/
theorem candidateFiles_empty (fsFiles : List SrcFile) :
    candidateFiles fsFiles (some []) =
      fsFiles.filter fun f => !(BINARY_EXTS.contains (pyLower f.suffix)) := by
  unfold candidateFiles resolveExts
  simp

/-! ## Bridging lemmas between the search loops and the spec description -/

/-- The uncapped spec description coincides with the accumulated hits. -/
theorem specUncapped_eq_allHits (r : Regex) (files : List (String × List Byte)) :
    specUncappedResults r files = allHits r files := by
  unfold specUncappedResults allHits
  congr 1
  funext fc
  exact specFileResults_eq r fc.1 (pySplit NL fc.2) 1

/-- The number of uncapped hits is the number of matching lines. -/
theorem allHits_length (r : Regex) (files : List (String × List Byte)) :
    (allHits r files).length = countMatchingLines r files := by
  unfold allHits countMatchingLines
  rw [List.length_flatMap]
  congr 1
  exact List.map_congr_left fun fc _ => lineHits_length r fc.1 (pySplit NL fc.2) 1

/-- Hits over concatenated file lists split accordingly. -/
theorem allHits_append (r : Regex) (fs1 fs2 : List (String × List Byte)) :
    allHits r (fs1 ++ fs2) = allHits r fs1 ++ allHits r fs2 := by
  unfold allHits
  exact List.flatMap_append fs1 fs2 _

/-! ## Registry invariant -/

/-- The section-3 invariant on one codebase: the buffer dict and the
metadata dict have the same keys (in fact the same key sequence). -/
abbrev keysEq (cb : Codebase) : Prop :=
  cb.files.map Prod.fst = cb.stats.map Prod.fst

/-- The invariant over the whole registry. -/
abbrev regInv (st : Registry) : Prop := ∀ e ∈ st, keysEq e.2

/-! ## Concrete test data -/

/-- ASCII bytes of a string, for concrete inputs. -/
def bytesOf (s : String) : List Byte := s.data.map Char.toNat

/-- A two-line Python file: "hello world" and "bye", no trailing newline. -/
def fileA : SrcFile :=
  { path := "/d/a.py", suffix := ".py", size := 15, mtime := 0,
    content := bytesOf "hello world\nbye", writable := true }

/-- A one-line text file: "HELLO there". -/
def fileB : SrcFile :=
  { path := "/d/b.txt", suffix := ".txt", size := 11, mtime := 0,
    content := bytesOf "HELLO there", writable := true }

/-- A zero-length Python file, skipped by the load loop. -/
def fileEmpty : SrcFile :=
  { path := "/d/c.py", suffix := ".py", size := 0, mtime := 0,
    content := [], writable := true }

/-- A stylesheet: its extension is not binary-excluded, but it is also not
in the default allow-list. -/
def fileCss : SrcFile :=
  { path := "/d/s.css", suffix := ".css", size := 4, mtime := 0,
    content := bytesOf "body", writable := true }

/-- A readable but non-writable Python file: `open(f, 'r+b')` raises. -/
def fileLocked : SrcFile :=
  { path := "/d/lock.py", suffix := ".py", size := 4, mtime := 0,
    content := bytesOf "priv", writable := false }

/-- The registry after loading the demo directory. -/
def demoReg : Registry :=
  (load [] "demo" "/d" true [fileA, fileB, fileEmpty] none).1

/-- The codebase recorded for the demo directory. -/
def demoCb : Codebase :=
  { name := "demo", path := "/d",
    files := [(fileA.path, fileA.content), (fileB.path, fileB.content)],
    stats := [(fileA.path, mkMeta fileA), (fileB.path, mkMeta fileB)] }

/-- A compiled pattern matching the literal lower-case `hello`. -/
def demoRegex : Regex :=
  { matchesAt := fun s p => (s.drop p).take 5 == bytesOf "hello" }

/-- Lookup misses when the key is absent from the key list. -/
theorem alLookup_eq_none_of_not_mem {α : Type} (k : String) :
    ∀ l : List (String × α), k ∉ l.map Prod.fst → alLookup k l = none
  | [] => fun _ => rfl
  | (k', v') :: rest => by
    intro h
    simp only [List.map_cons, List.mem_cons] at h
    push_neg at h
    unfold alLookup
    rw [if_neg fun he => h.1 he.symm]
    exact alLookup_eq_none_of_not_mem k rest h.2

/-- On a dict (no duplicate keys), a deleted key no longer resolves. -/
theorem alLookup_alErase_self {α : Type} (k : String) :
    ∀ l : List (String × α), (l.map Prod.fst).Nodup →
      alLookup k (alErase k l) = none
  | [] => fun _ => rfl
  | (k', v') :: rest => by
    intro hnd
    simp only [List.map_cons, List.nodup_cons] at hnd
    by_cases h : k' = k
    · subst h
      unfold alErase
      rw [if_pos rfl]
      exact alLookup_eq_none_of_not_mem k' rest hnd.1
    · unfold alErase
      rw [if_neg h]
      unfold alLookup
      rw [if_neg h]
      exact alLookup_alErase_self k rest hnd.2

/-! ## The claims -/

/-- C1: for every loaded codebase and every compiled pattern, searching with
no result cap returns exactly one result per line (across all files of the
codebase, in file order) at which the pattern has a match, and no other
results; the number of results is the number of matching lines, and the
reported byte offset is the leftmost matching offset of the line (the
compiled pattern's `search` reports the least offset that matches, and no
smaller offset matches). -/
theorem c1_uncapped_search (st : Registry) (name pat : String) (cs : Bool)
    (r : Regex) (cb : Codebase) (h : alLookup name st = some cb) :
    (search st ⟨name, pat, cs, none⟩ (some r)).2.1 = specUncappedResults r cb.files ∧
    (search st ⟨name, pat, cs, none⟩ (some r)).2.1.length = countMatchingLines r cb.files ∧
    (∀ s q, r.search s = some q →
      r.matchesAt s q = true ∧ ∀ j, j < q → r.matchesAt s j = false) := by
  have hres : (search st ⟨name, pat, cs, none⟩ (some r)).2.1 = allHits r cb.files := by
    unfold search
    rw [h]
    show searchFiles r none [] cb.files = allHits r cb.files
    rw [searchFiles_none r cb.files []]
    rfl
  refine ⟨?_, ?_, ?_⟩
  · rw [hres, specUncapped_eq_allHits]
  · rw [hres, allHits_length]
  · intro s q hq
    obtain ⟨h1, _, h3⟩ := search_leftmost r s q hq
    exact ⟨h1, h3⟩

/-- Witness for C1: the demo codebase searched for `hello`. -/
theorem c1_uncapped_search_witness :
    (search demoReg ⟨"demo", "hello", true, none⟩ (some demoRegex)).2.1 =
      specUncappedResults demoRegex demoCb.files :=
  (c1_uncapped_search demoReg "demo" "hello" true demoRegex demoCb (by decide)).1

/-- C2 (amended): for every result cap `k ≥ 1` (a cap of `0` is falsy in the
source's truthiness test and behaves like no cap), the capped search returns
exactly the length-`min k full` prefix of the uncapped result list; and once
the cap is reached, files past the stopping point contribute nothing — the
file loop returns the same list whatever files follow. -/
theorem c2_cap_truncation (st : Registry) (name pat : String) (cs : Bool)
    (r : Regex) (k : Nat) (hk : 1 ≤ k) :
    (search st ⟨name, pat, cs, some k⟩ (some r)).2.1 =
      ((search st ⟨name, pat, cs, none⟩ (some r)).2.1).take k ∧
    (search st ⟨name, pat, cs, some k⟩ (some r)).2.1.length =
      min k ((search st ⟨name, pat, cs, none⟩ (some r)).2.1).length ∧
    (∀ cb more, alLookup name st = some cb →
      k ≤ (allHits r cb.files).length →
      searchFiles r (some k) [] (cb.files ++ more) =
        searchFiles r (some k) [] cb.files) := by
  cases hcb : alLookup name st with
  | none =>
    have h1 : (search st ⟨name, pat, cs, some k⟩ (some r)).2.1 = [] := by
      unfold search
      rw [hcb]
    have h2 : (search st ⟨name, pat, cs, none⟩ (some r)).2.1 = [] := by
      unfold search
      rw [hcb]
    rw [h1, h2]
    refine ⟨by simp, by simp, ?_⟩
    intro cb more hcb2
    exact absurd hcb2 (by simp)
  | some cb0 =>
    have h1 : (search st ⟨name, pat, cs, some k⟩ (some r)).2.1 = (allHits r cb0.files).take k := by
      unfold search
      rw [hcb]
      show searchFiles r (some k) [] cb0.files = _
      rw [searchFiles_capped r k hk cb0.files [] (by simp; omega)]
      rfl
    have h2 : (search st ⟨name, pat, cs, none⟩ (some r)).2.1 = allHits r cb0.files := by
      unfold search
      rw [hcb]
      show searchFiles r none [] cb0.files = _
      rw [searchFiles_none r cb0.files []]
      rfl
    refine ⟨by rw [h1, h2], by rw [h1, h2, List.length_take], ?_⟩
    intro cb more hcb2 hlen
    injection hcb2 with hcb2
    subst hcb2
    rw [searchFiles_capped r k hk (cb0.files ++ more) [] (by simp; omega),
      searchFiles_capped r k hk cb0.files [] (by simp; omega),
      List.nil_append, List.nil_append, allHits_append,
      take_append_of_le _ _ _ hlen]

/-- Witness for C2: the demo codebase with cap 1. -/
theorem c2_cap_truncation_witness :
    (search demoReg ⟨"demo", "hello", true, some 1⟩ (some demoRegex)).2.1 =
      ((search demoReg ⟨"demo", "hello", true, none⟩ (some demoRegex)).2.1).take 1 :=
  (c2_cap_truncation demoReg "demo" "hello" true demoRegex 1 (by decide)).1

/-- C2 counterexample: with cap `k = 0` the source's truthiness test
`request.max_results and ...` never fires, so the search returns its full
result (here one result) instead of the claimed `min(0, full) = 0`. -/
theorem c2_cap_zero_counterexample :
    (search demoReg ⟨"demo", "hello", true, some 0⟩ (some demoRegex)).2.1.length = 1 ∧
    min 0 ((search demoReg ⟨"demo", "hello", true, none⟩ (some demoRegex)).2.1).length
      = 0 :=
  ⟨by decide, Nat.zero_min _⟩

/-- C3 (amended): unloading a name not present in the registry leaves the
registry unchanged and reports nothing at all — the `if name in
self.codebases` guard makes the call a silent no-op, with no
`UnknownCodebase` message; consequently the second of two back-to-back
unloads of the same name is that same silent no-op. -/
theorem c3_unload_unknown_silent (st : Registry) (name : String)
    (hnd : (st.map Prod.fst).Nodup) :
    (alLookup name st = none → unload st name = (st, [])) ∧
    (∀ cb, alLookup name st = some cb →
      unload (unload st name).1 name = ((unload st name).1, [])) := by
  constructor
  · intro h
    unfold unload
    rw [h]
  · intro cb h
    have h1 : (unload st name).1 = alErase name st := by
      unfold unload
      rw [h]
    rw [h1]
    have h2 : alLookup name (alErase name st) = none :=
      alLookup_alErase_self name st hnd
    unfold unload
    rw [h2]

/-- Witness for C3 (amended): unloading from an empty registry. -/
theorem c3_unload_unknown_silent_witness : unload [] "absent" = ([], []) :=
  (c3_unload_unknown_silent [] "absent" (by simp)).1 rfl

/-- C3 counterexample: unloading the demo codebase empties the registry, and
the second `unload("demo")` returns with an empty message list — no
`UnknownCodebase` (or any) error is reported, contrary to the claim. -/
theorem c3_counterexample :
    (unload demoReg "demo").1 = [] ∧ unload [] "demo" = ([], []) :=
  ⟨by decide, rfl⟩

/-- C4 counterexample: `.css` is not in the binary-exclusion set, yet with
no allow-list supplied a `.css` file is not a candidate — the built-in
default allow-list filters it out, and loading a directory holding only
that file fails with `No files found`. -/
theorem c4_counterexample :
    BINARY_EXTS.contains (pyLower fileCss.suffix) = false ∧
    candidateFiles [fileCss] none = [] ∧
    load [] "web" "/d" true [fileCss] none =
      ([], false, [Msg.loading "web" "/d", Msg.noFiles "/d"]) :=
  ⟨by decide, by decide, by decide⟩

/-- C4 (amended): when `load` is called without an allow-list the built-in
default allow-list applies: a file is a candidate exactly when its lowered
suffix is not binary-excluded and its exact suffix is in `DEFAULT_EXTS`;
"all non-excluded extensions pass" is not the no-argument behaviour. -/
theorem c4_default_allowlist (fsFiles : List SrcFile) :
    candidateFiles fsFiles none =
      fsFiles.filter (fun f =>
        !(BINARY_EXTS.contains (pyLower f.suffix)) &&
          DEFAULT_EXTS.contains f.suffix) ∧
    resolveExts none = DEFAULT_EXTS :=
  ⟨candidateFiles_none fsFiles, rfl⟩

/-- C5: for every file indexed by a successful load, the recorded line
count equals the number of newline bytes in the mapped content plus one —
equivalently the number of segments splitting the content on the newline
byte yields — and the content is non-empty, because zero-length files are
skipped. -/
theorem c5_line_count (st : Registry) (name path : String)
    (fsFiles : List SrcFile) (exts : Option (List String))
    (st' : Registry) (msgs : List Msg) (cb : Codebase) (fp : String) (meta : FileMeta)
    (h1 : load st name path true fsFiles exts = (st', true, msgs))
    (h2 : alLookup name st' = some cb)
    (h3 : (fp, meta) ∈ cb.stats) :
    ∃ c : List Byte, (fp, c) ∈ cb.files ∧
      meta.lines = c.count NL + 1 ∧
      meta.lines = (pySplit NL c).length ∧ c ≠ [] := by
  unfold load at h1
  rw [if_neg (by simp)] at h1
  by_cases hemp : (loadFiles (candidateFiles fsFiles exts)).isEmpty
  · rw [if_pos hemp] at h1
    exact absurd (congrArg (fun t => t.2.1) h1) (by simp)
  · rw [if_neg hemp] at h1
    have hst : st' = alInsert name
        { name := name, path := path,
          files := loadFiles (candidateFiles fsFiles exts),
          stats := loadStats (candidateFiles fsFiles exts) } st :=
      (congrArg Prod.fst h1).symm
    subst hst
    rw [alLookup_alInsert_self] at h2
    injection h2 with h2
    subst h2
    simp only [loadStats, loadEntries_eq, List.map_map] at h3
    obtain ⟨f, hf, heq⟩ := List.mem_map.mp h3
    obtain ⟨hfc, hfok⟩ := List.mem_filter.mp hf
    have hfp : f.path = fp := congrArg Prod.fst heq
    have hmeta : mkMeta f = meta := congrArg Prod.snd heq
    have hpos : 0 < f.content.length := by
      unfold loadOk at hfok
      rcases Bool.and_eq_true_iff.mp hfok with ⟨_, hlen⟩
      exact of_decide_eq_true hlen
    refine ⟨f.content, ?_, ?_, ?_, ?_⟩
    · show (fp, f.content) ∈ (loadFiles (candidateFiles fsFiles exts))
      rw [loadFiles, loadEntries_eq, List.map_map]
      exact List.mem_map.mpr ⟨f, hf, by rw [← hfp]; rfl⟩
    · rw [← hmeta]
      show (pySplit NL f.content).length = f.content.count NL + 1
      exact pySplit_length NL f.content
    · rw [← hmeta]
      exact rfl
    · intro hnil
      rw [hnil] at hpos
      simp at hpos

/-- Witness for C5: the demo file `a.py` with two lines. -/
theorem c5_line_count_witness :
    ∃ c : List Byte, (fileA.path, c) ∈ demoCb.files ∧
      (mkMeta fileA).lines = c.count NL + 1 ∧
      (mkMeta fileA).lines = (pySplit NL c).length ∧ c ≠ [] :=
  c5_line_count [] "demo" "/d" [fileA, fileB, fileEmpty] none
    demoReg [Msg.loading "demo" "/d", Msg.loaded 2 "demo"]
    demoCb fileA.path (mkMeta fileA) (by decide) (by decide) (by decide)

/-- The concrete Stats value of the demo codebase. -/
def demoStats : Stats :=
  { files := 2, size := 26, lines := 3, words := 5,
    types := [(".py", 1), (".txt", 1)],
    size_by_ext := [(".py", 15), (".txt", 11)],
    lines_by_ext := [(".py", 2), (".txt", 1)] }

/-- C6: for every loaded codebase, the per-extension size sums add up to
the total size, and the per-extension line sums add up to the total line
count. -/
theorem c6_stats_additive (st : Registry) (name : String) (s : Stats)
    (h : (statsOf st name).2.1 = some s) :
    sumVals s.size_by_ext = s.size ∧ sumVals s.lines_by_ext = s.lines := by
  cases hcb : alLookup name st with
  | none =>
    simp only [statsOf, hcb] at h
    exact absurd h (by simp)
  | some cb =>
    simp only [statsOf, hcb, Option.some.injEq] at h
    subst h
    constructor
    · rw [sumVals_accumBy]
      simp only [sumVals, List.map_map]
      exact congrArg List.sum (List.map_congr_left fun e _ => rfl)
    · rw [sumVals_accumBy]
      simp only [sumVals, List.map_map]
      exact congrArg List.sum (List.map_congr_left fun e _ => rfl)

/-- Witness for C6: the demo codebase's stats. -/
theorem c6_stats_additive_witness :
    sumVals demoStats.size_by_ext = demoStats.size ∧
    sumVals demoStats.lines_by_ext = demoStats.lines :=
  c6_stats_additive demoReg "demo" demoStats (by decide)

/-- C7: a search naming an unknown codebase, or whose pattern fails to
compile, returns the empty result list, reports the corresponding error
message (`No codebase` respectively `Bad regex`), and leaves the registry
unchanged; being a total function, the operation cannot throw past the
call boundary. -/
theorem c7_search_errors (st : Registry) (req : SearchRequest)
    (compiled : Option Regex)
    (h : alLookup req.codebase st = none ∨ compiled = none) :
    (search st req compiled).1 = st ∧
    (search st req compiled).2.1 = [] ∧
    ((search st req compiled).2.2 = [Msg.noCodebase req.codebase] ∨
      (search st req compiled).2.2 = [Msg.badRegex]) := by
  unfold search
  cases hcb : alLookup req.codebase st with
  | none => exact ⟨rfl, rfl, Or.inl rfl⟩
  | some cb =>
    rcases h with h | h
    · rw [hcb] at h
      exact absurd h (by simp)
    · subst h
      exact ⟨rfl, rfl, Or.inr rfl⟩

/-- Witness for C7: an unloaded codebase name with an unbalanced-group
pattern whose compilation failed. -/
theorem c7_search_errors_witness :
    (search [] ⟨"nope", "(", true, none⟩ none).1 = ([] : Registry) ∧
    (search [] ⟨"nope", "(", true, none⟩ none).2.1 = [] ∧
    ((search [] ⟨"nope", "(", true, none⟩ none).2.2 = [Msg.noCodebase "nope"] ∨
      (search [] ⟨"nope", "(", true, none⟩ none).2.2 = [Msg.badRegex]) :=
  c7_search_errors [] ⟨"nope", "(", true, none⟩ none (Or.inl rfl)

/-- C8: if every codebase in the registry has equal key sequences in its
buffer dict and its metadata dict, this remains so after `load` (the new
entry's two dicts are built in lockstep) and after `unload`, while
`search`, `stats` and `file_info` do not modify the registry at all. -/
theorem c8_keys_invariant (st : Registry) (hinv : regInv st) :
    (∀ name path pd fsFiles exts, regInv (load st name path pd fsFiles exts).1) ∧
    (∀ name, regInv (unload st name).1) ∧
    (∀ req compiled, (search st req compiled).1 = st) ∧
    (∀ name, (statsOf st name).1 = st) ∧
    (∀ name fp, (fileInfo st name fp).1 = st) := by
  refine ⟨?_, ?_, ?_, ?_, ?_⟩
  · intro name path pd fsFiles exts
    unfold load
    by_cases hpd : pd = false
    · rw [if_pos hpd]
      exact hinv
    · rw [if_neg hpd]
      by_cases hemp : (loadFiles (candidateFiles fsFiles exts)).isEmpty
      · rw [if_pos hemp]
        exact hinv
      · rw [if_neg hemp]
        intro e he
        rcases mem_alInsert name _ e st he with heq | hmem
        · subst heq
          show (loadFiles (candidateFiles fsFiles exts)).map Prod.fst =
            (loadStats (candidateFiles fsFiles exts)).map Prod.fst
          simp only [loadFiles, loadStats, List.map_map]
          exact List.map_congr_left fun g _ => rfl
        · exact hinv e hmem
  · intro name
    unfold unload
    cases alLookup name st with
    | none => exact hinv
    | some cb =>
      intro e he
      exact hinv e (mem_alErase name e st he)
  · intro req compiled
    unfold search
    cases alLookup req.codebase st with
    | none => rfl
    | some cb =>
      cases compiled with
      | none => rfl
      | some r => rfl
  · intro name
    unfold statsOf
    cases alLookup name st with
    | none => rfl
    | some cb => rfl
  · intro name fp
    cases halk : alLookup name st with
    | none => simp [fileInfo, halk]
    | some cb =>
      cases halk2 : alLookup fp cb.stats with
      | none => simp [fileInfo, halk, halk2]
      | some s => simp [fileInfo, halk, halk2]

/-- Witness for C8: the demo registry. -/
theorem c8_keys_invariant_witness : regInv (unload demoReg "demo").1 :=
  (c8_keys_invariant demoReg (by decide)).2.1 "demo"

/-- C9: `load` opens candidates in `'r+b'` mode, so a readable but
non-writable candidate raises on open: it is logged (`Couldn't load`) and
skipped, the keys of the recorded buffer and metadata dicts are exactly the
paths of the writable non-empty candidates (so a non-writable candidate
with a unique path appears in neither), and when every candidate is
non-writable the whole load fails — registry untouched, result `False`,
`No files found` reported. -/
theorem c9_unwritable_skipped (st : Registry) (name path : String)
    (fsFiles : List SrcFile) (exts : Option (List String)) :
    (∀ f ∈ candidateFiles fsFiles exts, f.writable = false →
      Msg.loadError f.path ∈ (load st name path true fsFiles exts).2.2) ∧
    ((load st name path true fsFiles exts).2.1 = true →
      ∃ cb, alLookup name (load st name path true fsFiles exts).1 = some cb ∧
        cb.files.map Prod.fst =
          ((candidateFiles fsFiles exts).filter loadOk).map SrcFile.path ∧
        cb.stats.map Prod.fst =
          ((candidateFiles fsFiles exts).filter loadOk).map SrcFile.path ∧
        ∀ f ∈ candidateFiles fsFiles exts, f.writable = false →
          (∀ g ∈ candidateFiles fsFiles exts, g.path = f.path → g = f) →
          f.path ∉ cb.files.map Prod.fst ∧ f.path ∉ cb.stats.map Prod.fst) ∧
    ((∀ f ∈ candidateFiles fsFiles exts, f.writable = false) →
      (load st name path true fsFiles exts).1 = st ∧
      (load st name path true fsFiles exts).2.1 = false ∧
      Msg.noFiles path ∈ (load st name path true fsFiles exts).2.2) := by
  refine ⟨?_, ?_, ?_⟩
  · intro f hf hw
    have hmem : Msg.loadError f.path ∈ loadErrs (candidateFiles fsFiles exts) := by
      rw [loadErrs_eq]
      refine List.mem_map.mpr ⟨f, List.mem_filter.mpr ⟨hf, ?_⟩, rfl⟩
      rw [hw]
      rfl
    unfold load
    rw [if_neg (by simp)]
    by_cases hemp : (loadFiles (candidateFiles fsFiles exts)).isEmpty
    · rw [if_pos hemp]
      exact List.mem_cons_of_mem _ (List.mem_append.mpr (Or.inl hmem))
    · rw [if_neg hemp]
      exact List.mem_cons_of_mem _ (List.mem_append.mpr (Or.inl hmem))
  · intro hok
    unfold load at hok ⊢
    rw [if_neg (by simp)] at hok ⊢
    by_cases hemp : (loadFiles (candidateFiles fsFiles exts)).isEmpty
    · rw [if_pos hemp] at hok
      exact absurd hok (by simp)
    · rw [if_neg hemp] at hok ⊢
      have hkeys : (loadFiles (candidateFiles fsFiles exts)).map Prod.fst =
          ((candidateFiles fsFiles exts).filter loadOk).map SrcFile.path := by
        simp only [loadFiles, loadEntries_eq, List.map_map]
        exact List.map_congr_left fun g _ => rfl
      have hkeys2 : (loadStats (candidateFiles fsFiles exts)).map Prod.fst =
          ((candidateFiles fsFiles exts).filter loadOk).map SrcFile.path := by
        simp only [loadStats, loadEntries_eq, List.map_map]
        exact List.map_congr_left fun g _ => rfl
      have hnot : ∀ f ∈ candidateFiles fsFiles exts, f.writable = false →
          (∀ g ∈ candidateFiles fsFiles exts, g.path = f.path → g = f) →
          f.path ∉ ((candidateFiles fsFiles exts).filter loadOk).map SrcFile.path := by
        intro f hf hw huniq hcontra
        obtain ⟨g, hg, hgp⟩ := List.mem_map.mp hcontra
        obtain ⟨hgc, hgok⟩ := List.mem_filter.mp hg
        have hgf : g = f := huniq g hgc hgp
        subst hgf
        rw [loadOk, hw] at hgok
        simp at hgok
      refine ⟨_, alLookup_alInsert_self _ _ _, hkeys, hkeys2, ?_⟩
      intro f hf hw huniq
      constructor
      · show f.path ∉ (loadFiles (candidateFiles fsFiles exts)).map Prod.fst
        rw [hkeys]
        exact hnot f hf hw huniq
      · show f.path ∉ (loadStats (candidateFiles fsFiles exts)).map Prod.fst
        rw [hkeys2]
        exact hnot f hf hw huniq
  · intro hall
    have hfilter : (candidateFiles fsFiles exts).filter loadOk = [] := by
      rw [List.filter_eq_nil_iff]
      intro f hf
      rw [loadOk, hall f hf]
      simp
    have hemp : (loadFiles (candidateFiles fsFiles exts)).isEmpty = true := by
      rw [loadFiles, loadEntries_eq, hfilter]
      rfl
    unfold load
    rw [if_neg (by simp), if_pos hemp]
    refine ⟨rfl, rfl, ?_⟩
    simp

/-- Witness for C9: a locked (non-writable) Python file is logged. -/
theorem c9_unwritable_skipped_witness :
    Msg.loadError fileLocked.path ∈
      (load [] "lk" "/d" true [fileLocked, fileA] none).2.2 :=
  (c9_unwritable_skipped [] "lk" "/d" [fileLocked, fileA] none).1
    fileLocked (by decide) rfl

/-- C10: an explicitly empty allow-list (`exts=[]`) is falsy, so allow-list
filtering is disabled entirely: every file whose lowered suffix is not
binary-excluded is a candidate; only the absent argument (`None`) triggers
the built-in default allow-list, while `some l` is used as given. -/
theorem c10_empty_allowlist (fsFiles : List SrcFile) :
    candidateFiles fsFiles (some []) =
      fsFiles.filter (fun f => !(BINARY_EXTS.contains (pyLower f.suffix))) ∧
    resolveExts none = DEFAULT_EXTS ∧
    ∀ l : List String, resolveExts (some l) = l :=
  ⟨candidateFiles_empty fsFiles, rfl, fun _ => rfl⟩

end MmapGrep
